import Mathlib

set_option maxHeartbeats 1000000

/-!
Shallow embedding of the core of `find-that-charity`:
`findthatcharity/commands/indexdata.py` (identity-graph index, cluster
resolver, canonical selector, field aggregator, bulk publisher and
stale-generation sweeper) and `server/queries.py` (`get_field_type`).

Modelling conventions:
* Python `set` / `OrderedDict.fromkeys` values are modelled as
  insertion-ordered duplicate-free lists (first occurrence wins), so set
  iteration order is fixed to first-insertion order;
* `datetime.date` values are modelled as integer day numbers, so
  `(now().date() - dateRegistered).days` becomes integer subtraction
  against a `runDate` parameter;
* Python float scores are modelled as exact rationals (the only float
  operations performed are `priority + 1 / age` with small integer
  `priority` and integer `age`, whose order relations agree with the
  rational ones);
* an uncaught exception (`ZeroDivisionError` at `priority += 1 / age`,
  `IndexError` at `orgids[0]`) is modelled by returning `Option.none`;
* `complete_names.weight` (a float `log1p` of `latestIncome`) is not
  needed by any claim and is left out of the document model.
-/

/-- Ordered-set insertion: append `a` to `acc` unless it is already present.
This models adding one element to a Python `set`, with iteration order fixed
to insertion order. -/
def insAbsent {α : Type} [DecidableEq α] (acc : List α) (a : α) : List α :=
  if a ∈ acc then acc else acc ++ [a]

/-- Add all elements of `l` to the ordered set `acc` (models `set.update`). -/
def odedupInto {α : Type} [DecidableEq α] (acc l : List α) : List α :=
  l.foldl insAbsent acc

/-- Insertion-ordered deduplication: models building a Python `set` from a
list, or `OrderedDict.fromkeys`. -/
def odedup {α : Type} [DecidableEq α] (l : List α) : List α :=
  odedupInto [] l

/-- One raw organisation row as loaded by the SQL query in `importdata`
(lines 55-63): its own scheme-qualified `id`, the aggregated
`linked_orgs` (which may contain nulls from the outer join), the
registry-equivalent `orgIDs`, and the descriptive fields.  `latestIncome`
is omitted (only used for the unmodelled autocomplete weight). -/
structure Record where
  id : String
  linked_orgs : List (Option String)
  orgIDs : List (Option String)
  name : String
  alternateName : List String
  organisationType : List String
  source : String
  active : Bool
  postalCode : Option String
  dateRegistered : Option Int
deriving DecidableEq

/-- The identifiers one record mentions: `[r.id] + r.linked_orgs + r.orgIDs`
with falsy entries (nulls and empty strings) discarded — the body of
`get_ids_from_record` for a single record (indexdata.py lines 34-37). -/
def refsOfRecord (r : Record) : List String :=
  ((some r.id :: (r.linked_orgs ++ r.orgIDs)).filterMap (fun o => o)).filter
    (fun s => s ≠ "")

/-- Python `get_ids_from_record` (indexdata.py lines 31-37) applied to a list of
records: the deduplicated union of the identifiers they mention. -/
def get_ids_from_record (rs : List Record) : List String :=
  odedup ((rs.map refsOfRecord).flatten)

/-- Lookup `orgs.get(i)` for the identity-graph index built at lines 67-72: every
loaded record that mentions identifier `i`, in load order.  A missing key
yields `[]`, which is falsy exactly like the `None` returned by `.get`. -/
def orgsGet (rs : List Record) (i : String) : List Record :=
  rs.filter (fun r => i ∈ refsOfRecord r)

/-- The key insertion order of the `orgs` defaultdict (lines 67-72), i.e.
the iteration order of `orgs.items()` at line 84. -/
def orgsKeys (rs : List Record) : List String :=
  odedup ((rs.map (fun r => get_ids_from_record [r])).flatten)

/-- Line 86: the seed frontier of key `k` — all identifiers mentioned by
the records mapped to `k`. -/
def seedFrontier (rs : List Record) (k : String) : List String :=
  get_ids_from_record (orgsGet rs k)

/-- Lines 88-90: `ids_to_check` after the single extra expansion round —
the seed frontier united with the identifiers mentioned by the records
mapped to any seed-frontier identifier.  (The source performs exactly this
one round; there is no fixed-point loop.) -/
def closedFrontier (rs : List Record) (k : String) : List String :=
  let s := seedFrontier rs k
  odedupInto s
    (((s.filter (fun i => orgsGet rs i ≠ [])).map
        (fun i => get_ids_from_record (orgsGet rs i))).flatten)

/-- Lines 91-92: the cluster's member records — the concatenation of
`orgs.get(i)` over the closed frontier (truthy entries only). -/
def clusterRecords (rs : List Record) (k : String) : List Record :=
  (((closedFrontier rs k).filter (fun i => orgsGet rs i ≠ [])).map
      (orgsGet rs)).flatten

/-- The mutable state of the resolver loop: the global `orgs_checked`
visited set and the list of emitted clusters (closed frontier plus member
records), in emission order. -/
structure ResolveState where
  visited : List String
  clusters : List (List String × List Record)
deriving DecidableEq

/-- One iteration of the loop at lines 84-102 for key `k`: compute the
closed frontier and member records; if any frontier identifier was already
visited, discard the attempt (`continue`), otherwise mark the frontier
visited and emit the cluster. -/
def resolveStep (rs : List Record) (st : ResolveState) (k : String) : ResolveState :=
  if (closedFrontier rs k).any (fun i => i ∈ st.visited) then st
  else ⟨st.visited ++ closedFrontier rs k,
        st.clusters ++ [(closedFrontier rs k, clusterRecords rs k)]⟩

/-- The whole resolver loop: fold `resolveStep` over the index keys in
their insertion order, starting from an empty visited set. -/
def resolveAll (rs : List Record) : ResolveState :=
  (orgsKeys rs).foldl (resolveStep rs) ⟨[], []⟩

/-- Python `s.split(p)`-style character splitting on a list of characters:
splitting `"A-B"` on `-` gives `["A","B"]`, the empty string gives `[""]`,
and separators at the ends produce empty pieces, exactly like
`str.split(sep)`. -/
def splitChars (p : Char → Bool) : List Char → List (List Char)
  | [] => [[]]
  | c :: cs =>
    if p c then [] :: splitChars p cs
    else
      match splitChars p cs with
      | [] => [[c]]
      | w :: ws => (c :: w) :: ws

/-- Python `s.split("-")`. -/
def pySplitDash (s : String) : List String :=
  (splitChars (fun c => c = '-') s.data).map (fun l => String.mk l)

/-- Python `str.split()` with no argument: split on whitespace runs and
drop the empty pieces. -/
def pySplitWhite (s : String) : List String :=
  ((splitChars (fun c => c = ' ' ∨ c = '\t' ∨ c = '\n' ∨ c = '\r') s.data).map
      (fun l => String.mk l)).filter (fun w => w ≠ "")

/-- Python `"-".join(i["id"].split("-")[0:2])` (indexdata.py lines 106, 115, 120):
the scheme part of a scheme-qualified identifier. -/
def schemeOf (s : String) : String :=
  String.intercalate "-" ((pySplitDash s).take 2)

/-- The `priorities` dict of indexdata.py lines 14-21: the priority table
`["GB-CHC", "GB-SC", "GB-NIC", "GB-COH", "GB-EDU"]` is reversed and
enumerated from 1, and `priorities.get(scheme, 0)` gives 0 to unknown
schemes. -/
def priorities (scheme : String) : Nat :=
  if scheme = "GB-CHC" then 5
  else if scheme = "GB-SC" then 4
  else if scheme = "GB-NIC" then 3
  else if scheme = "GB-COH" then 2
  else if scheme = "GB-EDU" then 1
  else 0

/-- One scored identifier occurrence — the tuple
`(id, scheme, priority, dateRegistered, name)` appended to `ids`
at indexdata.py lines 112, 117 and 122. -/
structure Occ where
  id : String
  scheme : String
  score : ℚ
  dateRegistered : Option Int
  name : String
deriving DecidableEq

/-- Lines 106-110: the score of the record's own id.  When the record has a
registration date and is active, `1 / age` is added, where
`age = (now().date() - dateRegistered).days`; an age of zero days raises
`ZeroDivisionError`, modelled as `none`. -/
def ownScore (runDate : Int) (r : Record) : Option ℚ :=
  match r.dateRegistered, r.active with
  | some d, true =>
    if runDate - d = 0 then Option.none
    else some ((priorities (schemeOf r.id) : ℚ) + 1 / ((runDate - d : Int) : ℚ))
  | _, _ => some (priorities (schemeOf r.id) : ℚ)

/-- Lines 113-122: the occurrence appended for one linked or alternate
identifier `j` of record `r` — its priority is looked up afresh from the
scheme table (no recency bonus), and it carries `r`'s date and name. -/
def linkedOcc (r : Record) (j : String) : Occ :=
  ⟨j, schemeOf j, (priorities (schemeOf j) : ℚ), r.dateRegistered, r.name⟩

/-- Lines 104-122 restricted to one record: the own-id occurrence, then one
occurrence per truthy entry of `linked_orgs`, then one per truthy entry of
`orgIDs`. -/
def recordOccs (runDate : Int) (r : Record) : Option (List Occ) :=
  (ownScore runDate r).map (fun s =>
    ⟨r.id, schemeOf r.id, s, r.dateRegistered, r.name⟩ ::
      ((r.linked_orgs.filterMap (fun o => o)).filter (fun j => j ≠ "")).map (linkedOcc r) ++
      ((r.orgIDs.filterMap (fun o => o)).filter (fun j => j ≠ "")).map (linkedOcc r))

/-- The full `ids` list of a cluster (lines 104-122): the occurrences of
every member record, in record order. -/
def clusterOccs (runDate : Int) : List Record → Option (List Occ)
  | [] => some []
  | r :: rest =>
    match recordOccs runDate r, clusterOccs runDate rest with
    | some a, some b => some (a ++ b)
    | _, _ => Option.none

/-- The sort relation of line 124: descending score. -/
def occGE (a b : Occ) : Prop := b.score ≤ a.score

instance : DecidableRel occGE := fun a b => inferInstanceAs (Decidable (b.score ≤ a.score))

instance : IsTotal Occ occGE := ⟨fun a b => le_total b.score a.score⟩

instance : IsTrans Occ occGE := ⟨fun _ _ _ h1 h2 => le_trans h2 h1⟩

/-- Line 124: `sorted(ids, key=lambda x: -x[2])` — a stable sort by
descending score (Python `sorted` is stable; so is insertion sort). -/
def sortOccs (l : List Occ) : List Occ := l.insertionSort occGE

/-- Line 125: `list(OrderedDict.fromkeys([i[0] for i in ids]))`. -/
def canonicalOrgIDs (occs : List Occ) : List String :=
  odedup ((sortOccs occs).map Occ.id)

/-- Line 126: `list(OrderedDict.fromkeys([i[4] for i in ids]))`. -/
def canonicalNames (occs : List Occ) : List String :=
  odedup ((sortOccs occs).map Occ.name)

/-- Helper for `get_complete_names` (indexdata.py line 28): for a word list,
add to the set every whitespace-token suffix rejoined with single spaces. -/
def suffixJoins (w : List String) : List String :=
  (List.range w.length).map (fun r => String.intercalate " " (w.drop r))

/-- Python `get_complete_names` (indexdata.py lines 23-29). -/
def get_complete_names (all_names : List String) : List String :=
  all_names.foldl
    (fun words n =>
      if n ≠ "" then odedupInto words (suffixJoins (pySplitWhite n)) else words)
    []

/-- Modelled from the spec words for claim C7: "for every non-empty
alternate name, producing every suffix of its whitespace-tokenized word
sequence rejoined with single spaces, deduplicated into a flat list". -/
def specCompleteNames (all_names : List String) : List String :=
  odedup (((all_names.filter (fun n => n ≠ "")).map
      (fun n => suffixJoins (pySplitWhite n))).flatten)

/-- The published merged organisation document (indexdata.py lines 129-148),
without the Elasticsearch bookkeeping keys and the unmodelled
`complete_names.weight`. -/
structure MergedDoc where
  orgID : String
  name : String
  orgIDs : List String
  alternateName : List String
  completeNamesInput : List String
  organisationType : List String
  sources : List String
  active : Bool
  postalCode : List String
  last_updated : Int
deriving DecidableEq

/-- Lines 104-148: canonical selection plus field aggregation for one
cluster.  `none` models the uncaught exceptions: `ZeroDivisionError` at
line 110 and `IndexError` at `orgids[0]` / `names[0]`. -/
def buildDoc (runDate stamp : Int) (records : List Record) : Option MergedDoc :=
  match clusterOccs runDate records with
  | Option.none => Option.none
  | some occs =>
    match canonicalOrgIDs occs, canonicalNames occs with
    | oid :: restIds, nm :: _ =>
      let alt := odedup ((records.map (fun r => r.name :: r.alternateName)).flatten)
      some
        { orgID := oid
          name := nm
          orgIDs := oid :: restIds
          alternateName := alt
          completeNamesInput := get_complete_names alt
          organisationType := odedup ((records.map Record.organisationType).flatten)
          sources := odedup (records.map Record.source)
          active := records.any Record.active
          postalCode :=
            odedup ((records.filterMap Record.postalCode).filter (fun p => p ≠ ""))
          last_updated := stamp }
    | _, _ => Option.none

/-- An observable Elasticsearch side effect of `importdata`: a bulk publish
of a batch of documents (lines 151, 156) or the single delete-by-query
selecting every document whose `last_updated` differs from the run stamp
(lines 169-180). -/
inductive ESEvent where
  | publish (docs : List MergedDoc)
  | deleteByQuery (stamp : Int)
deriving DecidableEq

def isDeleteEvent : ESEvent → Bool
  | ESEvent.deleteByQuery _ => true
  | _ => false

/-- Build the merged documents of all emitted clusters, in emission order;
`none` if any cluster raises. -/
def buildDocs (runDate stamp : Int) : List (List String × List Record) → Option (List MergedDoc)
  | [] => some []
  | c :: rest =>
    match buildDoc runDate stamp c.2, buildDocs runDate stamp rest with
    | some d, some ds => some (d :: ds)
    | _, _ => Option.none

/-- One document through the batching buffer of lines 129-154: append to
`merged_orgs` and flush a publish batch once `es_bulk_limit` is reached. -/
def batchStep (limit : Nat) (s : List (List MergedDoc) × List MergedDoc) (d : MergedDoc) :
    List (List MergedDoc) × List MergedDoc :=
  if limit ≤ (s.2 ++ [d]).length then (s.1 ++ [s.2 ++ [d]], []) else (s.1, s.2 ++ [d])

/-- The full-size batches flushed inside the loop, and the remainder buffer
published by the final `bulk` call at line 156. -/
def batchLoop (limit : Nat) (docs : List MergedDoc) :
    List (List MergedDoc) × List MergedDoc :=
  docs.foldl (batchStep limit) ([], [])

/-- The Elasticsearch side-effect trace of `importdata` (lines 84-181):
the in-loop publish batches, then the final (possibly partial, possibly
empty) publish batch, then the single delete-by-query sweep.  `none`
models a run aborted by an uncaught exception before any further events. -/
def importPipeline (rs : List Record) (runDate stamp : Int) (limit : Nat) :
    Option (List ESEvent) :=
  match buildDocs runDate stamp (resolveAll rs).clusters with
  | Option.none => Option.none
  | some docs =>
    let bb := batchLoop limit docs
    some ((bb.1 ++ [bb.2]).map ESEvent.publish ++ [ESEvent.deleteByQuery stamp])

/-- A Python value as far as `server/queries.get_field_type` can tell them
apart.  `bool` is a separate constructor, but Python's
`isinstance(x, int)` is true for `bool` values too, which `isIntInst`
reflects. -/
inductive PyVal where
  | null
  | str (s : String)
  | date (iso : String)
  | float (q : ℚ)
  | int (n : Int)
  | bool (b : Bool)
deriving DecidableEq

/-- Python `result == ""`: only a string value compares equal to `""`. -/
def pyIsEmptyStr : PyVal → Bool
  | PyVal.str s => s = ""
  | _ => false

/-- Python `isinstance(result, (datetime.date, datetime.datetime))`. -/
def isDateInst : PyVal → Bool
  | PyVal.date _ => true
  | _ => false

/-- Python `isinstance(result, float)` (a Python `bool` is not a `float`). -/
def isFloatInst : PyVal → Bool
  | PyVal.float _ => true
  | _ => false

/-- Python `isinstance(result, int)` — true for `bool` values too, since Python's
`bool` is a subclass of `int`. -/
def isIntInst : PyVal → Bool
  | PyVal.int _ => true
  | PyVal.bool _ => true
  | _ => false

/-- Python `isinstance(result, bool)`. -/
def isBoolInst : PyVal → Bool
  | PyVal.bool _ => true
  | _ => false

/-- The data-extension cell built around one value, tagged the way
`get_field_type` tags its singleton dict. -/
inductive Cell where
  | empty
  | dateCell (v : PyVal)
  | floatCell (v : PyVal)
  | intCell (v : PyVal)
  | boolCell (v : PyVal)
  | strCell (v : PyVal)
deriving DecidableEq

/-- Function `get_field_type` of server/queries.py (lines 193-218), with the branches in
source order. -/
def get_field_type (result : PyVal) : Cell :=
  if result = PyVal.null ∨ pyIsEmptyStr result = true then Cell.empty
  else if isDateInst result then Cell.dateCell result
  else if isFloatInst result then Cell.floatCell result
  else if isIntInst result then Cell.intCell result
  else if isBoolInst result then Cell.boolCell result
  else Cell.strCell result

def chainRec (a b : String) : Record :=
  ⟨a, [some b], [], a, [], [], "s", false, Option.none, Option.none⟩

def chainEnd (a : String) : Record :=
  ⟨a, [], [], a, [], [], "s", false, Option.none, Option.none⟩

def rsChain6 : List Record :=
  [chainRec "A" "B", chainRec "B" "C", chainRec "C" "D",
   chainRec "D" "E", chainRec "E" "F", chainEnd "F"]

def rsChain5 : List Record :=
  [chainRec "P" "Q", chainRec "Q" "R", chainRec "R" "S",
   chainRec "S" "T", chainEnd "T"]


def rTie : Record :=
  { id := "GB-COH-1", linked_orgs := [], orgIDs := [some "GB-NIC-1"], name := "T",
    alternateName := [], organisationType := [], source := "s", active := true,
    postalCode := Option.none, dateRegistered := some 99 }

def rLink : Record :=
  { id := "GB-CHC-1", linked_orgs := [some "GB-CHC-2"], orgIDs := [], name := "L",
    alternateName := [], organisationType := [], source := "s", active := true,
    postalCode := Option.none, dateRegistered := some 98 }

def rToday : Record :=
  { id := "GB-CHC-7", linked_orgs := [], orgIDs := [], name := "Z",
    alternateName := [], organisationType := [], source := "s", active := true,
    postalCode := Option.none, dateRegistered := some 100 }

def rSolo : Record :=
  { id := "GB-CHC-1", linked_orgs := [], orgIDs := [], name := "Acme",
    alternateName := [], organisationType := [], source := "cc", active := true,
    postalCode := Option.none, dateRegistered := Option.none }

def rNamed : Record :=
  { id := "GB-CHC-3", linked_orgs := [], orgIDs := [], name := "A B",
    alternateName := [], organisationType := [], source := "s", active := false,
    postalCode := Option.none, dateRegistered := Option.none }

def rBlankPC : Record :=
  { id := "GB-CHC-4", linked_orgs := [], orgIDs := [], name := "N",
    alternateName := [], organisationType := [], source := "s", active := true,
    postalCode := some "", dateRegistered := Option.none }

def rNicW : Record :=
  { id := "GB-NIC-1", linked_orgs := [some "GB-COH-2"], orgIDs := [], name := "W",
    alternateName := [], organisationType := [], source := "s", active := false,
    postalCode := Option.none, dateRegistered := Option.none }

/-- The two occurrences of the one-record cluster `[rNicW]`: its own
GB-NIC id (priority 3, no bonus since inactive) and its linked GB-COH id
(priority 2). -/
def ocNicA : Occ := ⟨"GB-NIC-1", "GB-NIC", 3, Option.none, "W"⟩

def ocNicB : Occ := ⟨"GB-COH-2", "GB-COH", 2, Option.none, "W"⟩

/-- The two occurrences of the one-record cluster `[rLink]` at run date
100: the own id gets the 1/2 recency bonus, the linked id does not. -/
def ocLinkOwn : Occ := ⟨"GB-CHC-1", "GB-CHC", 5 + 1 / 2, some 98, "L"⟩

def ocLinkAlt : Occ := ⟨"GB-CHC-2", "GB-CHC", 5, some 98, "L"⟩

/-- The two occurrences of the one-record cluster `[rTie]` at run date 100:
the own GB-COH id scores 2 + 1/1 = 3 and the alternate GB-NIC id scores a
bare 3 — a tie. -/
def ocTieA : Occ := ⟨"GB-COH-1", "GB-COH", 3, some 99, "T"⟩

def ocTieB : Occ := ⟨"GB-NIC-1", "GB-NIC", 3, some 99, "T"⟩


/-- Modelled from the spec words for claim C8: "postalCode is the
deduplicated union of non-null values" across the cluster's records. -/
def specPostalCodes (rs : List Record) : List String :=
  odedup (rs.filterMap Record.postalCode)

/-- The merged document produced for the one-record cluster `[rNamed]`. -/
def docNamed : MergedDoc :=
  { orgID := "GB-CHC-3", name := "A B", orgIDs := ["GB-CHC-3"],
    alternateName := ["A B"], completeNamesInput := ["A B", "B"],
    organisationType := [], sources := ["s"], active := false,
    postalCode := [], last_updated := 0 }

/-- The merged document produced for the one-record cluster `[rSolo]`
with run stamp 7. -/
def docSolo : MergedDoc :=
  { orgID := "GB-CHC-1", name := "Acme", orgIDs := ["GB-CHC-1"],
    alternateName := ["Acme"], completeNamesInput := ["Acme"],
    organisationType := [], sources := ["cc"], active := true,
    postalCode := [], last_updated := 7 }

/-- The merged document produced for the one-record cluster `[rBlankPC]`. -/
def docBlank : MergedDoc :=
  { orgID := "GB-CHC-4", name := "N", orgIDs := ["GB-CHC-4"],
    alternateName := ["N"], completeNamesInput := ["N"],
    organisationType := [], sources := ["s"], active := true,
    postalCode := [], last_updated := 0 }

theorem mem_insAbsent {α : Type} [DecidableEq α] {acc : List α} {a x : α} :
    x ∈ insAbsent acc a ↔ x ∈ acc ∨ x = a := by
  unfold insAbsent
  by_cases h : a ∈ acc
  · rw [if_pos h]
    exact ⟨Or.inl, fun hx => hx.elim id (fun e => e ▸ h)⟩
  · rw [if_neg h]
    simp [List.mem_append]

theorem mem_odedupInto {α : Type} [DecidableEq α] (l acc : List α) (x : α) :
    x ∈ odedupInto acc l ↔ x ∈ acc ∨ x ∈ l := by
  induction l generalizing acc with
  | nil => simp [odedupInto]
  | cons a t ih =>
    simp only [odedupInto, List.foldl_cons] at *
    rw [ih (insAbsent acc a), mem_insAbsent]
    simp [List.mem_cons, or_assoc]

theorem mem_odedup {α : Type} [DecidableEq α] {l : List α} {x : α} :
    x ∈ odedup l ↔ x ∈ l := by
  simp [odedup, mem_odedupInto]

theorem nodup_insAbsent {α : Type} [DecidableEq α] {acc : List α} (a : α)
    (h : acc.Nodup) : (insAbsent acc a).Nodup := by
  unfold insAbsent
  by_cases ha : a ∈ acc
  · rwa [if_pos ha]
  · rw [if_neg ha, List.nodup_append]
    exact ⟨h, List.nodup_singleton a, by simpa [List.disjoint_singleton] using ha⟩

theorem nodup_odedupInto {α : Type} [DecidableEq α] (l acc : List α)
    (h : acc.Nodup) : (odedupInto acc l).Nodup := by
  induction l generalizing acc with
  | nil => exact h
  | cons a t ih =>
    simp only [odedupInto, List.foldl_cons]
    exact ih (insAbsent acc a) (nodup_insAbsent a h)

theorem nodup_odedup {α : Type} [DecidableEq α] (l : List α) : (odedup l).Nodup :=
  nodup_odedupInto l [] List.nodup_nil

theorem headq_insAbsent {α : Type} [DecidableEq α] {acc : List α} (a : α)
    (h : acc ≠ []) : (insAbsent acc a).head? = acc.head? ∧ insAbsent acc a ≠ [] := by
  unfold insAbsent
  by_cases ha : a ∈ acc
  · rw [if_pos ha]; exact ⟨rfl, h⟩
  · rw [if_neg ha]
    cases acc with
    | nil => exact absurd rfl h
    | cons b t => simp

theorem headq_odedupInto {α : Type} [DecidableEq α] (l acc : List α)
    (h : acc ≠ []) : (odedupInto acc l).head? = acc.head? := by
  induction l generalizing acc with
  | nil => rfl
  | cons a t ih =>
    simp only [odedupInto, List.foldl_cons]
    obtain ⟨h1, h2⟩ := headq_insAbsent a h
    exact (ih (insAbsent acc a) h2).trans h1

theorem headq_odedup_cons {α : Type} [DecidableEq α] (a : α) (l : List α) :
    (odedup (a :: l)).head? = some a := by
  have h0 : insAbsent ([] : List α) a = [a] := by simp [insAbsent]
  show (List.foldl insAbsent (insAbsent [] a) l).head? = some a
  rw [h0]
  exact headq_odedupInto l [a] (by simp)

/-- Claim C1 (refuted by the code): the resolver expands the frontier only
twice, not to a fixed point.  In the six-record chain A→B→C→D→E→F the first
emitted cluster has identifier set only A,B,C, yet its member record
`chainRec "C" "D"` also mentions the identifier D, which is not a member of
the cluster's identifier set. -/
theorem c1_closure_incomplete :
    (resolveAll rsChain6).clusters.head? =
      some (["A", "B", "C"],
        [chainRec "A" "B", chainRec "A" "B", chainRec "B" "C",
         chainRec "B" "C", chainRec "C" "D"]) ∧
    "D" ∈ refsOfRecord (chainRec "C" "D") ∧
    "D" ∉ (["A", "B", "C"] : List String) := by
  decide

/-- Claim C2 (refuted by the code): in the five-record chain P→Q→R→S→T the
identifier T occurs in the identity-graph index but the resolver emits a
single cluster whose identifier set is P,Q,R and none of whose member
records even mentions T — T is assigned to no cluster at all. -/
theorem c2_partition_incomplete :
    "T" ∈ orgsKeys rsChain5 ∧
    (resolveAll rsChain5).clusters.map Prod.fst = [["P", "Q", "R"]] ∧
    (clusterRecords rsChain5 "P").all
      (fun r => ("T" : String) ∉ refsOfRecord r) = true := by
  decide

/-- Claim C6 (refuted by the code): scoring is not total — for an active
record whose registration date equals the run date the age is zero days and
`priority += 1 / age` divides by zero (modelled as `none`), aborting the
whole document build. -/
theorem c6_zero_age_division :
    rToday.active = true ∧ rToday.dateRegistered = some 100 ∧
    ownScore 100 rToday = Option.none ∧
    buildDoc 100 0 [rToday] = Option.none := by
  decide

/-- Claim C4 counterexample: a GB-COH record registered one day before the
run gets a recency bonus of exactly 1, tying the score 3 of a known
higher-priority GB-NIC identifier in the same cluster; the stable sort then
keeps the GB-COH occurrence first, so the lower-priority scheme is selected
canonical. -/
theorem c4_counterexample :
    (buildDoc 100 0 [rTie]).map MergedDoc.orgID = some "GB-COH-1" ∧
    priorities "GB-COH" < priorities "GB-NIC" ∧
    (clusterOccs 100 [rTie]).map (fun l => l.map Occ.scheme) =
      some ["GB-COH", "GB-NIC"] := by
  have hsC : schemeOf "GB-COH-1" = "GB-COH" := by decide
  have hsN : schemeOf "GB-NIC-1" = "GB-NIC" := by decide
  have e1 : clusterOccs 100 [rTie] = some [ocTieA, ocTieB] := by
    simp [clusterOccs, recordOccs, ownScore, linkedOcc, rTie, ocTieA, ocTieB,
      hsC, hsN, priorities]
    norm_num
  have e2 : sortOccs [ocTieA, ocTieB] = [ocTieA, ocTieB] := by
    show List.orderedInsert occGE ocTieA (List.orderedInsert occGE ocTieB []) = _
    rw [List.orderedInsert_nil, List.orderedInsert_of_le]
    exact le_refl (3 : ℚ)
  refine ⟨?_, by decide, ?_⟩
  · simp only [buildDoc, e1, canonicalOrgIDs, canonicalNames, e2]
    decide
  · rw [e1]
    decide

/-- Claim C5 counterexample: `rLink` is active with a registration date two
days before the run, so its own id is scored 5 + 1/2; but the occurrence of
its linked identifier (same scheme, same owning record) is scored a bare 5 —
the recency bonus is not applied to linked occurrences. -/
theorem c5_counterexample :
    rLink.active = true ∧ rLink.dateRegistered = some 98 ∧
    (recordOccs 100 rLink).map (fun l => l.map Occ.score) =
      some [5 + 1 / 2, 5] ∧
    ((5 : ℚ) ≠ 5 + 1 / 2) := by
  have h1 : schemeOf "GB-CHC-1" = "GB-CHC" := by decide
  have h2 : schemeOf "GB-CHC-2" = "GB-CHC" := by decide
  refine ⟨rfl, rfl, ?_, by norm_num⟩
  simp [recordOccs, ownScore, linkedOcc, rLink, h1, h2, priorities]

/-- Claim C8 counterexample: a record whose postalCode is the empty string
(a non-null value) contributes nothing to the merged document's postalCode
list, because the source filters on Python truthiness, not on nullness. -/
theorem c8_counterexample :
    (buildDoc 100 0 [rBlankPC]).map MergedDoc.postalCode = some [] ∧
    specPostalCodes [rBlankPC] = [""] ∧
    (([] : List String) ≠ [""]) := by
  decide

/-- Claim C3: if any identifier of the closed frontier is already visited,
the step discards the attempt — no cluster is emitted and the visited set is
unchanged; otherwise the whole frontier is marked visited and exactly one
cluster (the frontier with its member records) is appended. -/
theorem c3_discard_or_emit (rs : List Record) (st : ResolveState) (k : String) :
    ((∃ i ∈ closedFrontier rs k, i ∈ st.visited) → resolveStep rs st k = st) ∧
    ((∀ i ∈ closedFrontier rs k, i ∉ st.visited) →
      (resolveStep rs st k).visited = st.visited ++ closedFrontier rs k ∧
      (resolveStep rs st k).clusters =
        st.clusters ++ [(closedFrontier rs k, clusterRecords rs k)]) := by
  constructor
  · rintro ⟨i, hi, hv⟩
    unfold resolveStep
    rw [if_pos]
    exact List.any_eq_true.mpr ⟨i, hi, by simpa using hv⟩
  · intro h
    unfold resolveStep
    rw [if_neg]
    · exact ⟨rfl, rfl⟩
    · simp only [List.any_eq_true, decide_eq_true_eq, not_exists, not_and]
      exact h

/-- Witness for C3 at concrete inputs: with "GB-CHC-1" already visited the
step is the identity; starting from the empty state the frontier is marked
visited. -/
theorem c3_discard_or_emit_check :
    resolveStep [rSolo] ⟨["GB-CHC-1"], []⟩ "GB-CHC-1" = ⟨["GB-CHC-1"], []⟩ ∧
    (resolveStep [rSolo] ⟨[], []⟩ "GB-CHC-1").visited =
      [] ++ closedFrontier [rSolo] "GB-CHC-1" :=
  ⟨(c3_discard_or_emit [rSolo] ⟨["GB-CHC-1"], []⟩ "GB-CHC-1").1
      ⟨"GB-CHC-1", by decide, by decide⟩,
   ((c3_discard_or_emit [rSolo] ⟨[], []⟩ "GB-CHC-1").2 (by decide)).1⟩

/-- Claim C10: Python booleans satisfy `isinstance(result, int)`, so
`get_field_type` returns an int-tagged cell for every boolean input and the
bool branch is unreachable for every possible input. -/
theorem c10_bool_branch_unreachable :
    (∀ b : Bool, get_field_type (PyVal.bool b) = Cell.intCell (PyVal.bool b)) ∧
    ∀ v x : PyVal, get_field_type v ≠ Cell.boolCell x := by
  constructor
  · intro b; cases b <;> rfl
  · intro v x
    cases v <;>
      simp only [get_field_type, pyIsEmptyStr, isDateInst, isFloatInst, isIntInst,
        isBoolInst] <;>
      split <;> simp

theorem sortOccs_head_ge {l : List Occ} {o : Occ} {t : List Occ}
    (h : sortOccs l = o :: t) : ∀ x ∈ l, x.score ≤ o.score := by
  intro x hx
  have hs : List.Sorted occGE (sortOccs l) := List.sorted_insertionSort occGE l
  have hx2 : x ∈ sortOccs l := (List.mem_insertionSort occGE).mpr hx
  rw [h] at hs hx2
  rcases List.mem_cons.mp hx2 with rfl | hxt
  · exact le_refl _
  · exact List.rel_of_sorted_cons hs x hxt

theorem ownScore_bounds (rd : Int) (r : Record) (s : ℚ)
    (h : ownScore rd r = some s)
    (hage : r.active = true → ∀ d, r.dateRegistered = some d → 2 ≤ rd - d) :
    (priorities (schemeOf r.id) : ℚ) ≤ s ∧ s < priorities (schemeOf r.id) + 1 := by
  unfold ownScore at h
  rcases hd : r.dateRegistered with _ | d <;> rcases ha : r.active with _ | _ <;>
    rw [hd, ha] at h
  · exact (Option.some.inj h) ▸ ⟨le_refl _, lt_add_one _⟩
  · exact (Option.some.inj h) ▸ ⟨le_refl _, lt_add_one _⟩
  · exact (Option.some.inj h) ▸ ⟨le_refl _, lt_add_one _⟩
  · have h' : (if rd - d = 0 then (Option.none : Option ℚ)
        else some ((priorities (schemeOf r.id) : ℚ) + 1 / ((rd - d : Int) : ℚ))) =
          some s := h
    by_cases hz : rd - d = 0
    · rw [if_pos hz] at h'
      cases h'
    · rw [if_neg hz] at h'
      have hs := Option.some.inj h' 
      have h2 : (2 : ℤ) ≤ rd - d := hage ha d hd
      have h2q : (2 : ℚ) ≤ ((rd - d : ℤ) : ℚ) := by exact_mod_cast h2
      have hb0 : (0 : ℚ) < 1 / ((rd - d : ℤ) : ℚ) :=
        div_pos one_pos (lt_of_lt_of_le (by norm_num) h2q)
      have hb1 : 1 / ((rd - d : ℤ) : ℚ) ≤ 1 / 2 :=
        one_div_le_one_div_of_le (by norm_num) h2q
      constructor
      · rw [← hs]; exact le_add_of_nonneg_right hb0.le
      · rw [← hs]
        exact add_lt_add_left (lt_of_le_of_lt hb1 (by norm_num)) _

theorem recordOccs_score_bounds (rd : Int) (r : Record) (l : List Occ)
    (h : recordOccs rd r = some l)
    (hage : r.active = true → ∀ d, r.dateRegistered = some d → 2 ≤ rd - d) :
    ∀ o ∈ l, (priorities o.scheme : ℚ) ≤ o.score ∧
      o.score < priorities o.scheme + 1 := by
  intro o ho
  unfold recordOccs at h
  cases hs : ownScore rd r with
  | none => rw [hs] at h; cases h
  | some s =>
    rw [hs] at h
    injection h with h
    subst h
    rcases List.mem_cons.mp ho with rfl | ho2
    · exact ownScore_bounds rd r s hs hage
    · rcases List.mem_append.mp ho2 with h3 | h3 <;>
        · obtain ⟨j, _, rfl⟩ := List.mem_map.mp h3
          exact ⟨le_refl _, lt_add_one _⟩

theorem clusterOccs_score_bounds (rd : Int) (rs : List Record) (occs : List Occ)
    (h : clusterOccs rd rs = some occs)
    (hage : ∀ r ∈ rs, r.active = true → ∀ d, r.dateRegistered = some d → 2 ≤ rd - d) :
    ∀ o ∈ occs, (priorities o.scheme : ℚ) ≤ o.score ∧
      o.score < priorities o.scheme + 1 := by
  induction rs generalizing occs with
  | nil =>
    unfold clusterOccs at h
    injection h with h
    subst h
    intro o ho
    cases ho
  | cons r rest ih =>
    unfold clusterOccs at h
    cases h1 : recordOccs rd r with
    | none => rw [h1] at h; cases h
    | some a =>
      cases h2 : clusterOccs rd rest with
      | none => rw [h1, h2] at h; cases h
      | some b =>
        rw [h1, h2] at h
        injection h with h
        subst h
        intro o ho
        rcases List.mem_append.mp ho with hoa | hob
        · exact recordOccs_score_bounds rd r a h1 (hage r (by simp)) o hoa
        · exact ih b h2 (fun r' hr' => hage r' (by simp [hr'])) o hob

/-- Claim C4 (amended): the recency bonus is at most 1 and reaches exactly 1
for a record registered one day before the run, which can tie a
higher-priority scheme (see the counterexample); whenever every active,
dated member record is at least two days old — so every bonus lies in
[0, 1) — the canonical orgID is an occurrence of maximal scheme priority,
regardless of record order. -/
theorem c4_priority_order_amended (rs : List Record) (rd : Int) (occs : List Occ)
    (c : String) (hocc : clusterOccs rd rs = some occs)
    (hage : ∀ r ∈ rs, r.active = true → ∀ d, r.dateRegistered = some d → 2 ≤ rd - d)
    (hc : (canonicalOrgIDs occs).head? = some c) :
    ∃ o ∈ occs, o.id = c ∧ ∀ o' ∈ occs, priorities o'.scheme ≤ priorities o.scheme := by
  cases hsort : sortOccs occs with
  | nil =>
    rw [canonicalOrgIDs, hsort] at hc
    simp [odedup, odedupInto] at hc
  | cons o t =>
    rw [canonicalOrgIDs, hsort] at hc
    rw [show (o :: t).map Occ.id = o.id :: t.map Occ.id from rfl,
      headq_odedup_cons] at hc
    injection hc with hc
    have hbounds := clusterOccs_score_bounds rd rs occs hocc hage
    have homem : o ∈ occs := by
      have hmem : o ∈ sortOccs occs := by
        rw [hsort]; exact List.mem_cons_self o t
      exact (List.mem_insertionSort occGE).mp hmem
    refine ⟨o, homem, hc, ?_⟩
    intro o' ho'
    have h1 := (hbounds o' ho').1
    have h2 := (hbounds o homem).2
    have h3 : o'.score ≤ o.score := sortOccs_head_ge hsort o' ho'
    have h4 : (priorities o'.scheme : ℚ) < priorities o.scheme + 1 :=
      lt_of_le_of_lt (le_trans h1 h3) h2
    have h5 : priorities o'.scheme < priorities o.scheme + 1 := by exact_mod_cast h4
    omega

/-- Witness for the amended C4 at a concrete cluster: in `[rNicW]` the
GB-NIC occurrence has maximal priority and is selected canonical. -/
theorem c4_priority_order_amended_check :
    ∃ o ∈ [ocNicA, ocNicB], o.id = "GB-NIC-1" ∧
      ∀ o' ∈ [ocNicA, ocNicB], priorities o'.scheme ≤ priorities o.scheme :=
  c4_priority_order_amended [rNicW] 0 [ocNicA, ocNicB] "GB-NIC-1"
    (by decide)
    (by
      intro r hr ha d hd
      rw [List.mem_singleton] at hr
      subst hr
      exact absurd ha (by decide))
    (by decide)

/-- Claim C5 (amended): every occurrence a record exposes inherits the
record's registration date and name, but only the record's own id is scored
`score(scheme) + recency_bonus`; every linked or alternate occurrence is
scored the bare scheme priority, with no recency bonus. -/
theorem c5_occurrence_scoring_amended (rd : Int) (r : Record) (own : Occ)
    (rest : List Occ) (h : recordOccs rd r = some (own :: rest)) :
    own.id = r.id ∧ own.name = r.name ∧ own.dateRegistered = r.dateRegistered ∧
    ownScore rd r = some own.score ∧
    ∀ o ∈ rest, o.score = (priorities o.scheme : ℚ) ∧
      o.dateRegistered = r.dateRegistered ∧ o.name = r.name := by
  unfold recordOccs at h
  cases hs : ownScore rd r with
  | none => rw [hs] at h; cases h
  | some s =>
    rw [hs] at h
    injection h with h
    injection h with h1 h2
    subst h2
    subst h1
    refine ⟨rfl, rfl, rfl, rfl, ?_⟩
    intro o ho
    rcases List.mem_append.mp ho with h3 | h3 <;>
      · obtain ⟨j, _, rfl⟩ := List.mem_map.mp h3
        exact ⟨rfl, rfl, rfl⟩

/-- Witness for the amended C5 at the concrete record `rLink`: the own
occurrence carries the bonus through `ownScore`, the linked occurrence is
scored the bare priority 5. -/
theorem c5_occurrence_scoring_amended_check :
    ocLinkOwn.id = rLink.id ∧ ocLinkOwn.name = rLink.name ∧
    ocLinkOwn.dateRegistered = rLink.dateRegistered ∧
    ownScore 100 rLink = some ocLinkOwn.score ∧
    ∀ o ∈ [ocLinkAlt], o.score = (priorities o.scheme : ℚ) ∧
      o.dateRegistered = rLink.dateRegistered ∧ o.name = rLink.name :=
  c5_occurrence_scoring_amended 100 rLink ocLinkOwn [ocLinkAlt] (by
    have h1 : schemeOf "GB-CHC-1" = "GB-CHC" := by decide
    have h2 : schemeOf "GB-CHC-2" = "GB-CHC" := by decide
    simp [recordOccs, ownScore, linkedOcc, rLink, h1, h2, priorities,
      ocLinkOwn, ocLinkAlt])

theorem odedupInto_append {α : Type} [DecidableEq α] (acc l1 l2 : List α) :
    odedupInto acc (l1 ++ l2) = odedupInto (odedupInto acc l1) l2 :=
  List.foldl_append insAbsent acc l1 l2

theorem get_complete_names_spec_aux (names : List String) (acc : List String) :
    names.foldl
      (fun words n =>
        if n ≠ "" then odedupInto words (suffixJoins (pySplitWhite n)) else words)
      acc =
    odedupInto acc
      (((names.filter (fun n => n ≠ "")).map
          (fun n => suffixJoins (pySplitWhite n))).flatten) := by
  induction names generalizing acc with
  | nil => rfl
  | cons n rest ih =>
    by_cases hn : n = ""
    · subst hn
      simp only [List.foldl_cons, List.filter_cons, decide_eq_true_eq]
      rw [if_neg (by simp), if_neg (by simp)]
      exact ih acc
    · simp only [List.foldl_cons, List.filter_cons, decide_eq_true_eq]
      rw [if_pos hn, if_pos hn]
      rw [ih (odedupInto acc (suffixJoins (pySplitWhite n)))]
      simp only [List.map_cons, List.flatten_cons]
      rw [odedupInto_append]

/-- Claim C7: for every merged document, `complete_names.input` is exactly
the deduplicated flat list of whitespace-token suffixes (rejoined with
single spaces) of the non-empty names in the document's `alternateName`
list. -/
theorem c7_complete_names (runDate stamp : Int) (rs : List Record)
    (doc : MergedDoc) (h : buildDoc runDate stamp rs = some doc) :
    doc.completeNamesInput = specCompleteNames doc.alternateName := by
  unfold buildDoc at h
  split at h
  · cases h
  · split at h
    · injection h with h
      subst h
      show get_complete_names _ = specCompleteNames _
      exact get_complete_names_spec_aux _ []
    · cases h

/-- Witness for C7 at the concrete one-record cluster `[rNamed]` (name
"A B"): the document's complete-name inputs are the suffix joins of its
alternate names. -/
theorem c7_complete_names_check :
    docNamed.completeNamesInput = specCompleteNames docNamed.alternateName :=
  c7_complete_names 100 0 [rNamed] docNamed (by decide)

/-- Claim C8 (amended): the merged document's aggregated fields are exactly
the deduplicated unions over the cluster's records — `alternateName` of
name plus alternate names, `organisationType` and `sources` flattened,
`active` the logical OR — except that `postalCode` keeps only truthy
values: non-null AND non-empty (the source filters on Python truthiness,
so empty-string postcodes are dropped; see the counterexample). -/
theorem c8_union_fields (runDate stamp : Int) (rs : List Record) (doc : MergedDoc)
    (h : buildDoc runDate stamp rs = some doc) :
    (∀ x, x ∈ doc.alternateName ↔ ∃ r ∈ rs, x = r.name ∨ x ∈ r.alternateName) ∧
    doc.alternateName.Nodup ∧
    (∀ x, x ∈ doc.organisationType ↔ ∃ r ∈ rs, x ∈ r.organisationType) ∧
    doc.organisationType.Nodup ∧
    (∀ x, x ∈ doc.sources ↔ ∃ r ∈ rs, x = r.source) ∧
    doc.sources.Nodup ∧
    (doc.active = true ↔ ∃ r ∈ rs, r.active = true) ∧
    (∀ x, x ∈ doc.postalCode ↔ (∃ r ∈ rs, r.postalCode = some x) ∧ x ≠ "") ∧
    doc.postalCode.Nodup := by
  unfold buildDoc at h
  split at h
  · cases h
  · split at h
    · injection h with h
      have hAlt : doc.alternateName =
          odedup ((rs.map (fun r => r.name :: r.alternateName)).flatten) := by
        rw [← h]
      have hOrg : doc.organisationType =
          odedup ((rs.map Record.organisationType).flatten) := by rw [← h]
      have hSrc : doc.sources = odedup (rs.map Record.source) := by rw [← h]
      have hAct : doc.active = rs.any Record.active := by rw [← h]
      have hPC : doc.postalCode =
          odedup ((rs.filterMap Record.postalCode).filter (fun p => p ≠ "")) := by
        rw [← h]
      refine ⟨?_, ?_, ?_, ?_, ?_, ?_, ?_, ?_, ?_⟩
      · intro x
        rw [hAlt, mem_odedup, List.mem_flatten]
        constructor
        · rintro ⟨l, hl, hx⟩
          obtain ⟨r, hr, rfl⟩ := List.mem_map.mp hl
          exact ⟨r, hr, List.mem_cons.mp hx⟩
        · rintro ⟨r, hr, hx⟩
          exact ⟨r.name :: r.alternateName, List.mem_map.mpr ⟨r, hr, rfl⟩,
            List.mem_cons.mpr hx⟩
      · rw [hAlt]; exact nodup_odedup _
      · intro x
        rw [hOrg, mem_odedup]
        simp [List.mem_flatten]
      · rw [hOrg]; exact nodup_odedup _
      · intro x
        rw [hSrc, mem_odedup]
        simp [eq_comm]
      · rw [hSrc]; exact nodup_odedup _
      · rw [hAct]
        simp [List.any_eq_true]
      · intro x
        rw [hPC, mem_odedup]
        simp [List.mem_filter, List.mem_filterMap]
      · rw [hPC]; exact nodup_odedup _
    · cases h

/-- Witness for the amended C8 at the concrete one-record cluster
`[rBlankPC]` and its merged document `docBlank`. -/
theorem c8_union_fields_check :
    (∀ x, x ∈ docBlank.alternateName ↔
      ∃ r ∈ [rBlankPC], x = r.name ∨ x ∈ r.alternateName) ∧
    docBlank.alternateName.Nodup ∧
    (∀ x, x ∈ docBlank.organisationType ↔ ∃ r ∈ [rBlankPC], x ∈ r.organisationType) ∧
    docBlank.organisationType.Nodup ∧
    (∀ x, x ∈ docBlank.sources ↔ ∃ r ∈ [rBlankPC], x = r.source) ∧
    docBlank.sources.Nodup ∧
    (docBlank.active = true ↔ ∃ r ∈ [rBlankPC], r.active = true) ∧
    (∀ x, x ∈ docBlank.postalCode ↔
      (∃ r ∈ [rBlankPC], r.postalCode = some x) ∧ x ≠ "") ∧
    docBlank.postalCode.Nodup :=
  c8_union_fields 100 0 [rBlankPC] docBlank (by decide)

theorem buildDoc_stamp (rd st : Int) (recs : List Record) (d : MergedDoc)
    (h : buildDoc rd st recs = some d) : d.last_updated = st := by
  unfold buildDoc at h
  split at h
  · cases h
  · split at h
    · injection h with h
      rw [← h]
    · cases h

theorem buildDocs_stamp (rd st : Int) (cl : List (List String × List Record))
    (docs : List MergedDoc) (h : buildDocs rd st cl = some docs) :
    ∀ d ∈ docs, d.last_updated = st := by
  induction cl generalizing docs with
  | nil =>
    unfold buildDocs at h
    injection h with h
    subst h
    intro d hd
    cases hd
  | cons c rest ih =>
    unfold buildDocs at h
    cases h1 : buildDoc rd st c.2 with
    | none => rw [h1] at h; cases h
    | some d0 =>
      cases h2 : buildDocs rd st rest with
      | none => rw [h1, h2] at h; cases h
      | some ds =>
        rw [h1, h2] at h
        injection h with h
        subst h
        intro d hd
        rcases List.mem_cons.mp hd with rfl | hd2
        · exact buildDoc_stamp rd st c.2 d h1
        · exact ih ds h2 d hd2

theorem batchLoop_flatten (limit : Nat) (docs : List MergedDoc) :
    ∀ s : List (List MergedDoc) × List MergedDoc,
      ((docs.foldl (batchStep limit) s).1).flatten ++ (docs.foldl (batchStep limit) s).2 =
        s.1.flatten ++ s.2 ++ docs := by
  induction docs with
  | nil => intro s; simp
  | cons d rest ih =>
    intro s
    rw [List.foldl_cons, ih (batchStep limit s d)]
    unfold batchStep
    split
    · simp
    · simp

/-- Claim C9: every completed run's side-effect trace consists of publish
batches followed by exactly one delete-by-query carrying the run's stamp —
the sweep comes strictly after every publish batch, including the final
partial one, and every published document carries that same stamp. -/
theorem c9_sweep_after_publish (rs : List Record) (runDate stamp : Int)
    (limit : Nat) (t : List ESEvent)
    (h : importPipeline rs runDate stamp limit = some t) :
    ∃ bs : List (List MergedDoc),
      t = bs.map ESEvent.publish ++ [ESEvent.deleteByQuery stamp] ∧
      t.countP isDeleteEvent = 1 ∧
      ∀ b ∈ bs, ∀ d ∈ b, d.last_updated = stamp := by
  unfold importPipeline at h
  cases hdocs : buildDocs runDate stamp (resolveAll rs).clusters with
  | none => rw [hdocs] at h; cases h
  | some docs =>
    rw [hdocs] at h
    injection h with h
    subst h
    refine ⟨(batchLoop limit docs).1 ++ [(batchLoop limit docs).2], rfl, ?_, ?_⟩
    · simp [List.countP_append, List.countP_map, Function.comp, isDeleteEvent,
        List.countP_cons]
    · intro b hb d hd
      have hflat : d ∈ ((batchLoop limit docs).1).flatten ++ (batchLoop limit docs).2 := by
        rcases List.mem_append.mp hb with h1 | h1
        · exact List.mem_append.mpr (Or.inl (List.mem_flatten.mpr ⟨b, h1, hd⟩))
        · rw [List.mem_singleton] at h1
          subst h1
          exact List.mem_append.mpr (Or.inr hd)
      have hmem : d ∈ docs := by
        unfold batchLoop at hflat
        rw [batchLoop_flatten limit docs ([], [])] at hflat
        simpa using hflat
      exact buildDocs_stamp runDate stamp (resolveAll rs).clusters docs hdocs d hmem

/-- Witness for C9 at a concrete one-record run with stamp 7: one publish
batch then the delete-by-query. -/
theorem c9_sweep_after_publish_check :
    ∃ bs : List (List MergedDoc),
      [ESEvent.publish [docSolo], ESEvent.deleteByQuery 7] =
        bs.map ESEvent.publish ++ [ESEvent.deleteByQuery 7] ∧
      ([ESEvent.publish [docSolo], ESEvent.deleteByQuery 7] : List ESEvent).countP
        isDeleteEvent = 1 ∧
      ∀ b ∈ bs, ∀ d ∈ b, d.last_updated = 7 :=
  c9_sweep_after_publish [rSolo] 100 7 500 _ (by decide)
